import Mathlib

/-!
Verification of the tutorial-overlay component `src/tutorial/TutorialGuide.tsx`.

The component holds three pieces of state:
* `remainingSteps : StepsInfoType` — the queue of pending step descriptors;
* `currentStep : {el, tipProps}` — the active step (element handle and tooltip
  props, both nullable);
* `holeDims` — the CSS dimension strings of the overlay hole, initialised to
  the off-screen sentinel `INITIAL_HOLE_DIMENSIONS`.

The DOM is modelled as a `Dom` record: a resolver `byId : String → Option Element`
(mirroring `document.getElementById`) together with a rectangle assignment
`rect : Element → Rect` (mirroring `getBoundingClientRect`).  Element handles are
opaque naturals; rectangle coordinates are integers (the claims under study do
not depend on fractional pixel values).

Each observable trigger of the component — a mutation/resize/scroll
notification running `goToNextVisibleStep`, a click on the dimming layer, a key
press on it — is an `Op`.  Applying an `Op` also runs the `positionHole`
effects (lines 89-105 of the source), so states reached by `runOps` are the
settled states visible between event deliveries.
-/

namespace TutorialGuide

/-- An element handle (an `HTMLElement` reference); opaque, compared by identity. -/
abbrev Element := Nat

/-- A bounding client rectangle as returned by `getBoundingClientRect`. -/
structure Rect where
  top : Int
  left : Int
  height : Int
  width : Int
deriving DecidableEq, Repr

/-- The DOM as seen by the component: `byId` mirrors `document.getElementById`
(`none` = not currently attached), `rect` mirrors `el.getBoundingClientRect()`. -/
structure Dom where
  byId : String → Option Element
  rect : Element → Rect

/-- `ToolTipPropsType`: presentation flags and content payload (source line 4,
consumed at lines 129-135; the optional flags default to `false` at the use
site, which does not affect the claims below). -/
structure TipProps where
  isAboveElement : Bool
  isRightJustified : Bool
  children : String
deriving DecidableEq, Repr

/-- `StepInfoType = {elementId: string, tipProps: TipPropsType}` (source line 8). -/
structure StepInfo where
  elementId : String
  tipProps : TipProps
deriving DecidableEq, Repr

/-- The hole dimension strings kept in the `holeDims` state (source lines 11, 38). -/
structure HoleDims where
  top : String
  left : String
  height : String
  width : String
deriving DecidableEq, Repr

/-- `INITIAL_HOLE_DIMENSIONS` (source line 11): the off-screen, zero-area sentinel. -/
def INITIAL_HOLE_DIMENSIONS : HoleDims :=
  { top := "-200vh", left := "-200vw", height := "0px", width := "0px" }

/-- `StepType` (source lines 33-36): the current step, element and tip both nullable. -/
structure StepType where
  el : Option Element
  tipProps : Option TipProps
deriving DecidableEq, Repr

/-- The component state: `remainingSteps` (line 31), `currentStep` (line 37),
`holeDims` (line 38). -/
structure GuideState where
  remainingSteps : List StepInfo
  currentStep : StepType
  holeDims : HoleDims
deriving DecidableEq, Repr

/-- The state at mount: queue = `highlightedSteps`, no current step, sentinel hole. -/
def initialState (highlightedSteps : List StepInfo) : GuideState :=
  { remainingSteps := highlightedSteps
    currentStep := { el := none, tipProps := none }
    holeDims := INITIAL_HOLE_DIMENSIONS }

/-- Template-literal conversion of a pixel count, mirroring the interpolation
at source lines 47-50. -/
def pxValue (n : Int) : String := toString n ++ "px"

/-- `positionHole` (source lines 43-55): dimensions of the hole for a focus
element, or the sentinel when the element is null.  Returns the `holeDims`
value that `setHoleDims` stores. -/
def positionHole (dom : Dom) : Option Element → HoleDims
  | some el =>
    let elDimensions := dom.rect el
    { top := pxValue elDimensions.top
      left := pxValue elDimensions.left
      height := pxValue elDimensions.height
      width := pxValue elDimensions.width }
  | none => INITIAL_HOLE_DIMENSIONS

/-- The scan of the `for` loop at source lines 65-73: walk `remainingSteps` in
order and return the first descriptor whose `elementId` resolves, together
with the resolved element (the loop breaks at the first hit). -/
def findVisibleStep (dom : Dom) : List StepInfo → Option (StepInfo × Element)
  | [] => none
  | stepInfo :: rest =>
    match dom.byId stepInfo.elementId with
    | some el => some (stepInfo, el)
    | none => findVisibleStep dom rest

/-- The index the loop at source lines 65-73 stops at: position of the first
descriptor whose `elementId` resolves. -/
def firstVisibleIdx (dom : Dom) : List StepInfo → Option Nat
  | [] => none
  | stepInfo :: rest =>
    if (dom.byId stepInfo.elementId).isSome then some 0
    else (firstVisibleIdx dom rest).map (· + 1)

/-- `goToNextVisibleStep` (source lines 63-75): only advances when the current
step's element is null; promotes the first visible queued descriptor, removing
every queue entry sharing its `elementId` (the `filter` at line 70). -/
def goToNextVisibleStep (dom : Dom) (s : GuideState) : GuideState :=
  if s.currentStep.el = none then
    match findVisibleStep dom s.remainingSteps with
    | some (stepInfo, el) =>
      { s with
        currentStep := { el := some el, tipProps := some stepInfo.tipProps }
        remainingSteps :=
          s.remainingSteps.filter (fun step => step.elementId ≠ stepInfo.elementId) }
    | none => s
  else s

/-- The `onClick` handler (source line 115): unconditionally clears the
current step. -/
def onClick (s : GuideState) : GuideState :=
  { s with currentStep := { el := none, tipProps := none } }

/-- The `onKeyDown` handler (source line 116): clears the current step on
`Enter`, does nothing for any other key. -/
def onKeyDown (key : String) (s : GuideState) : GuideState :=
  if key = "Enter" then { s with currentStep := { el := none, tipProps := none } } else s

/-- The repositioning effects (source lines 89-105): recompute `holeDims` from
the current step's element.  Together with the hole update inside an
advancement this is what makes a state "settled". -/
def repositionHole (dom : Dom) (s : GuideState) : GuideState :=
  { s with holeDims := positionHole dom s.currentStep.el }

/-- One observable trigger of the component, tagged with the DOM as it stands
when the trigger fires (the DOM may change between triggers). -/
inductive Op where
  | advance (dom : Dom)
  | click (dom : Dom)
  | key (dom : Dom) (k : String)

/-- Apply one trigger and let the `positionHole` effects settle. -/
def applyOp (op : Op) (s : GuideState) : GuideState :=
  match op with
  | .advance dom => repositionHole dom (goToNextVisibleStep dom s)
  | .click dom => repositionHole dom (onClick s)
  | .key dom k => repositionHole dom (onKeyDown k s)

/-- Run a sequence of triggers from a state. -/
def runOps (ops : List Op) (s : GuideState) : GuideState :=
  ops.foldl (fun st op => applyOp op st) s

/-- The descriptor an advancement fired at state `s` under DOM `dom` would
promote, if any (none when a step is already active or nothing resolves). -/
def promotedOf (dom : Dom) (s : GuideState) : Option StepInfo :=
  if s.currentStep.el = none then (findVisibleStep dom s.remainingSteps).map Prod.fst
  else none

/-- Invariant I1: the hole is non-sentinel exactly when a step is active. -/
def holeInvariant (s : GuideState) : Prop :=
  s.holeDims ≠ INITIAL_HOLE_DIMENSIONS ↔ s.currentStep.el ≠ none

/-- The implicit invariant of `currentStep`: a null element comes with a null tip. -/
def stepInv (s : GuideState) : Prop :=
  s.currentStep.el = none → s.currentStep.tipProps = none

/-- What the component's JSX produces, up to the presentation layer: nothing,
or an overlay carrying the hole dimensions and the optional tooltip props
(source lines 107-142). -/
structure RenderedOverlay where
  holeDims : HoleDims
  tooltip : Option TipProps
deriving DecidableEq, Repr

/-- The render function (source lines 107-142): `null` when no element is
current, otherwise the overlay with the stored hole dimensions and tip. -/
def render (s : GuideState) : Option RenderedOverlay :=
  match s.currentStep.el with
  | none => none
  | some _ => some { holeDims := s.holeDims, tooltip := s.currentStep.tipProps }

/-! Helper lemmas -/

lemma pxValue_ne_vh (n : Int) : pxValue n ≠ "-200vh" := by
  intro h
  have hd : (toString n).data ++ ['p', 'x'] = ['-', '2', '0', '0', 'v', 'h'] := by
    have h2 := congrArg String.data h
    rwa [pxValue, String.data_append] at h2
  have h3 := congrArg List.reverse hd
  simp [List.reverse_append] at h3

lemma positionHole_none (dom : Dom) : positionHole dom none = INITIAL_HOLE_DIMENSIONS := rfl

lemma positionHole_some_ne_sentinel (dom : Dom) (el : Element) :
    positionHole dom (some el) ≠ INITIAL_HOLE_DIMENSIONS := by
  intro h
  have htop := congrArg HoleDims.top h
  exact pxValue_ne_vh (dom.rect el).top htop

lemma repositionHole_currentStep (dom : Dom) (s : GuideState) :
    (repositionHole dom s).currentStep = s.currentStep := rfl

lemma repositionHole_remainingSteps (dom : Dom) (s : GuideState) :
    (repositionHole dom s).remainingSteps = s.remainingSteps := rfl

lemma holeInvariant_repositionHole (dom : Dom) (s : GuideState) :
    holeInvariant (repositionHole dom s) := by
  unfold holeInvariant repositionHole
  cases h : s.currentStep.el with
  | none => simp [h, positionHole_none]
  | some el => simp [h, positionHole_some_ne_sentinel]

lemma holeInvariant_applyOp (op : Op) (s : GuideState) : holeInvariant (applyOp op s) := by
  cases op <;> exact holeInvariant_repositionHole _ _

lemma holeInvariant_initialState (steps : List StepInfo) :
    holeInvariant (initialState steps) := by
  unfold holeInvariant initialState
  simp

lemma runOps_nil (s : GuideState) : runOps [] s = s := rfl

lemma runOps_cons (op : Op) (ops : List Op) (s : GuideState) :
    runOps (op :: ops) s = runOps ops (applyOp op s) := rfl

lemma runOps_append (ops ops' : List Op) (s : GuideState) :
    runOps (ops ++ ops') s = runOps ops' (runOps ops s) := by
  unfold runOps
  exact List.foldl_append _ _ _ _

lemma holeInvariant_runOps (ops : List Op) (s : GuideState) (h : holeInvariant s) :
    holeInvariant (runOps ops s) := by
  induction ops generalizing s with
  | nil => exact h
  | cons op ops ih => rw [runOps_cons]; exact ih _ (holeInvariant_applyOp op s)

lemma findVisibleStep_mem {dom : Dom} {l : List StepInfo} {d : StepInfo} {el : Element}
    (h : findVisibleStep dom l = some (d, el)) : d ∈ l := by
  induction l with
  | nil => simp [findVisibleStep] at h
  | cons a rest ih =>
    rw [findVisibleStep] at h
    cases hb : dom.byId a.elementId with
    | some e => rw [hb] at h; simp at h; simp [h.1]
    | none => rw [hb] at h; exact List.mem_cons_of_mem a (ih h)

lemma findVisibleStep_resolves {dom : Dom} {l : List StepInfo} {d : StepInfo} {el : Element}
    (h : findVisibleStep dom l = some (d, el)) : dom.byId d.elementId = some el := by
  induction l with
  | nil => simp [findVisibleStep] at h
  | cons a rest ih =>
    rw [findVisibleStep] at h
    cases hb : dom.byId a.elementId with
    | some e => rw [hb] at h; simp at h; rw [← h.1, hb, h.2]
    | none => rw [hb] at h; exact ih h

lemma findVisibleStep_eq_none {dom : Dom} {l : List StepInfo}
    (h : ∀ d ∈ l, dom.byId d.elementId = none) : findVisibleStep dom l = none := by
  induction l with
  | nil => rfl
  | cons a rest ih =>
    rw [findVisibleStep, h a (List.mem_cons_self a rest)]
    exact ih fun d hd => h d (List.mem_cons_of_mem a hd)

lemma findVisibleStep_append_none {dom : Dom} {l₁ : List StepInfo} (l₂ : List StepInfo)
    (h : ∀ d ∈ l₁, dom.byId d.elementId = none) :
    findVisibleStep dom (l₁ ++ l₂) = findVisibleStep dom l₂ := by
  induction l₁ with
  | nil => rfl
  | cons a rest ih =>
    rw [List.cons_append, findVisibleStep, h a (List.mem_cons_self a rest)]
    exact ih fun d hd => h d (List.mem_cons_of_mem a hd)

lemma applyOp_remaining_sublist (op : Op) (s : GuideState) :
    (applyOp op s).remainingSteps.Sublist s.remainingSteps := by
  cases op with
  | advance dom =>
    rw [applyOp, repositionHole_remainingSteps, goToNextVisibleStep]
    by_cases h : s.currentStep.el = none
    · rw [if_pos h]
      cases hf : findVisibleStep dom s.remainingSteps with
      | none => exact List.Sublist.refl _
      | some p => exact List.filter_sublist _
    · rw [if_neg h]
  | click dom => exact List.Sublist.refl _
  | key dom k =>
    rw [applyOp, repositionHole_remainingSteps, onKeyDown]
    by_cases h : k = "Enter"
    · rw [if_pos h]
    · rw [if_neg h]

lemma runOps_remaining_sublist (ops : List Op) (s : GuideState) :
    (runOps ops s).remainingSteps.Sublist s.remainingSteps := by
  induction ops generalizing s with
  | nil => exact List.Sublist.refl _
  | cons op ops ih =>
    rw [runOps_cons]
    exact (ih (applyOp op s)).trans (applyOp_remaining_sublist op s)

lemma promotedOf_mem {dom : Dom} {s : GuideState} {d : StepInfo}
    (h : promotedOf dom s = some d) : d ∈ s.remainingSteps := by
  rw [promotedOf] at h
  by_cases hc : s.currentStep.el = none
  · rw [if_pos hc] at h
    obtain ⟨⟨d', el⟩, hp, hp1⟩ := Option.map_eq_some'.mp h
    simp at hp1
    have hm := findVisibleStep_mem hp
    rwa [hp1] at hm
  · rw [if_neg hc] at h; simp at h

lemma findVisibleStep_split {dom : Dom} {l₁ l₂ : List StepInfo} {d : StepInfo} {el : Element}
    (hbefore : ∀ d' ∈ l₁, dom.byId d'.elementId = none)
    (hel : dom.byId d.elementId = some el) :
    findVisibleStep dom (l₁ ++ d :: l₂) = some (d, el) := by
  rw [findVisibleStep_append_none _ hbefore, findVisibleStep, hel]

lemma firstVisibleIdx_exists_le {dom : Dom} (l₁ rest : List StepInfo) (a : StepInfo)
    (ha : (dom.byId a.elementId).isSome) :
    ∃ i, firstVisibleIdx dom (l₁ ++ a :: rest) = some i ∧ i ≤ l₁.length := by
  induction l₁ with
  | nil => exact ⟨0, by rw [List.nil_append, firstVisibleIdx, if_pos ha], Nat.le_refl 0⟩
  | cons c l₁ ih =>
    rw [List.cons_append, firstVisibleIdx]
    by_cases hc : (dom.byId c.elementId).isSome
    · exact ⟨0, by rw [if_pos hc], Nat.zero_le _⟩
    · obtain ⟨i, hi, hile⟩ := ih
      exact ⟨i + 1, by rw [if_neg hc, hi, Option.map_some'], by simpa using Nat.succ_le_succ hile⟩

lemma firstVisibleIdx_ne_of_not {dom : Dom} {d : StepInfo}
    (hd : ¬ (dom.byId d.elementId).isSome) (l₂ l₃ : List StepInfo) :
    firstVisibleIdx dom (l₂ ++ d :: l₃) ≠ some l₂.length := by
  induction l₂ with
  | nil =>
    rw [List.nil_append, firstVisibleIdx, if_neg hd]
    intro h
    obtain ⟨i, _, hi⟩ := Option.map_eq_some'.mp h
    simp at hi
  | cons c l₂ ih =>
    rw [List.cons_append, firstVisibleIdx]
    by_cases hc : (dom.byId c.elementId).isSome
    · rw [if_pos hc]; simp
    · rw [if_neg hc]
      intro h
      obtain ⟨i, hi, hlen⟩ := Option.map_eq_some'.mp h
      have : i = l₂.length := by simpa using hlen
      exact ih (this ▸ hi)

lemma firstVisibleIdx_ne_dup {dom : Dom} {d₁ d₂ : StepInfo}
    (hid : d₂.elementId = d₁.elementId) (l₁ l₂ l₃ : List StepInfo) :
    firstVisibleIdx dom (l₁ ++ d₁ :: l₂ ++ d₂ :: l₃) ≠ some (l₁.length + 1 + l₂.length) := by
  induction l₁ with
  | nil =>
    rw [List.nil_append, List.cons_append, firstVisibleIdx]
    by_cases h1 : (dom.byId d₁.elementId).isSome
    · rw [if_pos h1]
      intro h
      have h0 := Option.some.inj h
      simp at h0
      omega
    · rw [if_neg h1]
      intro h
      obtain ⟨i, hi, hlen⟩ := Option.map_eq_some'.mp h
      have hi' : i = l₂.length := by simp at hlen; omega
      have hd2 : ¬ (dom.byId d₂.elementId).isSome := by rw [hid]; exact h1
      exact firstVisibleIdx_ne_of_not hd2 l₂ l₃ (hi' ▸ hi)
  | cons c l₁ ih =>
    simp only [List.cons_append, firstVisibleIdx]
    by_cases hc : (dom.byId c.elementId).isSome
    · rw [if_pos hc]
      intro h
      have h0 := Option.some.inj h
      simp at h0
      omega
    · rw [if_neg hc]
      intro h
      obtain ⟨i, hi, hlen⟩ := Option.map_eq_some'.mp h
      have hi' : i = l₁.length + 1 + l₂.length := by simp at hlen; omega
      exact ih (hi' ▸ hi)

/-! Concrete fixtures, used by the witness theorems -/

def tipA : TipProps := { isAboveElement := false, isRightJustified := false, children := "tip a" }

def tipB : TipProps := { isAboveElement := true, isRightJustified := false, children := "tip b" }

def stepA : StepInfo := { elementId := "a", tipProps := tipA }

def stepB : StepInfo := { elementId := "b", tipProps := tipB }

def stepX1 : StepInfo := { elementId := "x", tipProps := tipA }

def stepX2 : StepInfo := { elementId := "x", tipProps := tipB }

/-- A fixed rectangle assignment for the fixture DOMs. -/
def rectOf (el : Element) : Rect :=
  { top := 10 * (el : Int), left := 20, height := 30, width := 40 }

/-- A DOM in which no element id resolves. -/
def domNone : Dom := { byId := fun _ => none, rect := rectOf }

/-- A DOM in which only id `b` resolves (Scenario 1 of the spec). -/
def domOnlyB : Dom := { byId := fun i => if i = "b" then some 1 else none, rect := rectOf }

/-- A DOM in which ids `a` and `b` both resolve. -/
def domAB : Dom :=
  { byId := fun i => if i = "a" then some 0 else if i = "b" then some 1 else none
    rect := rectOf }

/-- A DOM in which only id `x` resolves (Scenario 5 of the spec). -/
def domX : Dom := { byId := fun i => if i = "x" then some 7 else none, rect := rectOf }

/-- A state with an active step, for exercising the no-op branch of advancement. -/
def sActive : GuideState :=
  { remainingSteps := [stepB]
    currentStep := { el := some 5, tipProps := some tipA }
    holeDims := INITIAL_HOLE_DIMENSIONS }

/-! Claim theorems -/

/-- Claim C1: in every settled state reachable from the mount state, the hole
dimensions differ from the sentinel `INITIAL_HOLE_DIMENSIONS` exactly when the
current step's element is non-null (the state holds a single optional current
step, so at most one step is active by construction); and a dismissal click
resets the current element to null and the hole to the sentinel. -/
theorem spec_C1 (steps : List StepInfo) (ops : List Op) (s : GuideState) (dom : Dom) :
    holeInvariant (runOps ops (initialState steps)) ∧
    (applyOp (.click dom) s).currentStep.el = none ∧
    (applyOp (.click dom) s).holeDims = INITIAL_HOLE_DIMENSIONS :=
  ⟨holeInvariant_runOps ops _ (holeInvariant_initialState steps), rfl, rfl⟩

/-- Claim C2: with no current step, advancement promotes the first queued
descriptor whose id resolves — the current step becomes that element paired
with that descriptor's tip, the queue is filtered by the promoted id — and
every earlier descriptor (whose id did not resolve) stays in the queue. -/
theorem spec_C2 (dom : Dom) (s : GuideState) (l₁ l₂ : List StepInfo) (d : StepInfo)
    (el : Element)
    (hcur : s.currentStep.el = none)
    (hsplit : s.remainingSteps = l₁ ++ d :: l₂)
    (hbefore : ∀ d' ∈ l₁, dom.byId d'.elementId = none)
    (hel : dom.byId d.elementId = some el) :
    (goToNextVisibleStep dom s).currentStep = { el := some el, tipProps := some d.tipProps } ∧
    (goToNextVisibleStep dom s).remainingSteps
      = s.remainingSteps.filter (fun step => step.elementId ≠ d.elementId) ∧
    ∀ d' ∈ l₁, d' ∈ (goToNextVisibleStep dom s).remainingSteps := by
  have hfind : findVisibleStep dom s.remainingSteps = some (d, el) := by
    rw [hsplit]; exact findVisibleStep_split hbefore hel
  have hres : goToNextVisibleStep dom s =
      { s with
        currentStep := { el := some el, tipProps := some d.tipProps }
        remainingSteps := s.remainingSteps.filter (fun step => step.elementId ≠ d.elementId) } := by
    rw [goToNextVisibleStep, if_pos hcur, hfind]
  refine ⟨by rw [hres], by rw [hres], fun d' hd' => ?_⟩
  rw [hres]
  have hne : d'.elementId ≠ d.elementId := by
    intro he
    have h0 := hbefore d' hd'
    rw [he, hel] at h0
    exact Option.noConfusion h0
  refine List.mem_filter.mpr ⟨?_, by simpa using hne⟩
  rw [hsplit]
  exact List.mem_append_left _ hd'

/-- Scenario 1 instance of C2: with steps `[a, b]` and only `b`'s element
attached, the first advancement promotes `b` and leaves `a` queued. -/
theorem spec_C2_witness :
    (goToNextVisibleStep domOnlyB (initialState [stepA, stepB])).currentStep
      = { el := some 1, tipProps := some stepB.tipProps } ∧
    (goToNextVisibleStep domOnlyB (initialState [stepA, stepB])).remainingSteps
      = (initialState [stepA, stepB]).remainingSteps.filter
          (fun step => step.elementId ≠ stepB.elementId) ∧
    ∀ d' ∈ [stepA], d' ∈ (goToNextVisibleStep domOnlyB (initialState [stepA, stepB])).remainingSteps :=
  spec_C2 domOnlyB (initialState [stepA, stepB]) [stepA] [] stepB 1 rfl rfl
    (by decide) (by decide)

/-- Claim C7: when no queued descriptor's id resolves (in particular when the
queue is empty), advancement leaves the whole state — queue, current step and
hole — exactly unchanged; the embedding is a total function, so the case is
silent. -/
theorem spec_C7 (dom : Dom) (s : GuideState)
    (h : ∀ d ∈ s.remainingSteps, dom.byId d.elementId = none) :
    goToNextVisibleStep dom s = s := by
  rw [goToNextVisibleStep]
  by_cases hc : s.currentStep.el = none
  · rw [if_pos hc, findVisibleStep_eq_none h]
  · rw [if_neg hc]

/-- Witness for C7: a queued step whose element never appears changes nothing. -/
theorem spec_C7_witness : goToNextVisibleStep domNone (initialState [stepA]) = initialState [stepA] :=
  spec_C7 domNone (initialState [stepA]) (by decide)

/-- Claim C8: `positionHole` applied to null yields the sentinel, applied to an
element yields exactly that element's current bounding rectangle rendered in
pixels, and its output depends only on the rectangle the DOM reports at the
moment of the call (so no caching: two DOMs agreeing on the element's rectangle
give the same hole, and any rectangle change is reflected exactly). -/
theorem spec_C8 (dom dom' : Dom) (el : Element) :
    positionHole dom none = INITIAL_HOLE_DIMENSIONS ∧
    positionHole dom (some el) =
      { top := pxValue (dom.rect el).top, left := pxValue (dom.rect el).left,
        height := pxValue (dom.rect el).height, width := pxValue (dom.rect el).width } ∧
    (dom.rect el = dom'.rect el → positionHole dom (some el) = positionHole dom' (some el)) := by
  refine ⟨rfl, rfl, fun h => ?_⟩
  simp only [positionHole]
  rw [h]

/-- Witness for C8: two fixture DOMs share the rectangle assignment, so they
measure the same hole for element `0`. -/
theorem spec_C8_witness : positionHole domNone (some 0) = positionHole domOnlyB (some 0) :=
  (spec_C8 domNone domOnlyB 0).2.2 rfl

/-- Claim C9: a click on the dimming layer unconditionally clears the current
step (element and tip both null); the key handler dismisses exactly on
`Enter` — it equals the click handler there — and leaves the state unchanged
for every other key. -/
theorem spec_C9 (s : GuideState) (k : String) :
    (onClick s).currentStep.el = none ∧
    (onClick s).currentStep.tipProps = none ∧
    onKeyDown "Enter" s = onClick s ∧
    (k ≠ "Enter" → onKeyDown k s = s) := by
  refine ⟨rfl, rfl, ?_, fun h => ?_⟩
  · rw [onKeyDown, if_pos rfl]; rfl
  · rw [onKeyDown, if_neg h]

/-- Witness for C9: an `Escape` key press on the layer changes nothing. -/
theorem spec_C9_witness : onKeyDown "Escape" sActive = sActive :=
  (spec_C9 sActive "Escape").2.2.2 (by decide)

/-- Claim C3: over any sequence of triggers the queue only shrinks (it stays a
sublist of what it was, so its length never increases), and once a descriptor
is out of the queue no further triggers re-add it or promote it. -/
theorem spec_C3 (s : GuideState) (ops ops' : List Op) (d : StepInfo) :
    (runOps ops s).remainingSteps.Sublist s.remainingSteps ∧
    (runOps ops s).remainingSteps.length ≤ s.remainingSteps.length ∧
    (d ∉ (runOps ops s).remainingSteps →
      d ∉ (runOps (ops ++ ops') s).remainingSteps ∧
      ∀ dom, promotedOf dom (runOps (ops ++ ops') s) ≠ some d) := by
  have hsub := runOps_remaining_sublist ops s
  refine ⟨hsub, hsub.length_le, fun hd => ?_⟩
  have hsub' : (runOps (ops ++ ops') s).remainingSteps.Sublist (runOps ops s).remainingSteps := by
    rw [runOps_append]
    exact runOps_remaining_sublist ops' (runOps ops s)
  have hnotin : d ∉ (runOps (ops ++ ops') s).remainingSteps :=
    fun hmem => hd (hsub'.subset hmem)
  exact ⟨hnotin, fun dom hp => hnotin (promotedOf_mem hp)⟩

/-- Witness for C3: after `a` is promoted and removed, a further advancement
neither restores it to the queue nor promotes it again. -/
theorem spec_C3_witness :
    stepA ∉ (runOps ([Op.advance domAB] ++ [Op.advance domAB]) (initialState [stepA])).remainingSteps ∧
    promotedOf domAB (runOps ([Op.advance domAB] ++ [Op.advance domAB]) (initialState [stepA]))
      ≠ some stepA := by
  have h := (spec_C3 (initialState [stepA]) [Op.advance domAB] [Op.advance domAB] stepA).2.2
    (by decide)
  exact ⟨h.1, h.2 domAB⟩

/-- Claim C4: every trigger leaves the queue a sublist of what it was, so the
surviving descriptors keep their original relative order; and when a
descriptor `a` placed before `b` resolves, the scan stops at an index no
later than `a`'s position — strictly before `b`'s — so `a` (or an even
earlier descriptor) is promoted, never `b`, while `a` is still queued. -/
theorem spec_C4 (op : Op) (dom : Dom) (s : GuideState) (l₁ l₂ l₃ : List StepInfo)
    (a b : StepInfo)
    (hsplit : s.remainingSteps = l₁ ++ a :: l₂ ++ b :: l₃)
    (ha : (dom.byId a.elementId).isSome) :
    (applyOp op s).remainingSteps.Sublist s.remainingSteps ∧
    ∃ i, firstVisibleIdx dom s.remainingSteps = some i ∧ i ≤ l₁.length ∧
      i < l₁.length + 1 + l₂.length := by
  refine ⟨applyOp_remaining_sublist op s, ?_⟩
  rw [hsplit, List.append_assoc, List.cons_append]
  obtain ⟨i, hi, hile⟩ := firstVisibleIdx_exists_le l₁ (l₂ ++ b :: l₃) a ha
  exact ⟨i, hi, hile, by omega⟩

/-- Witness for C4: with `[a, b]` both attached, the scan stops at index `0`,
the position of `a`. -/
theorem spec_C4_witness :
    (applyOp (Op.advance domAB) (initialState [stepA, stepB])).remainingSteps.Sublist
      (initialState [stepA, stepB]).remainingSteps ∧
    ∃ i, firstVisibleIdx domAB (initialState [stepA, stepB]).remainingSteps = some i ∧
      i ≤ 0 ∧ i < 1 :=
  spec_C4 (Op.advance domAB) domAB (initialState [stepA, stepB]) [] [] [] stepA stepB
    rfl (by decide)

/-- The component state after an advancement trigger is stable: advancing it
again under the same DOM changes nothing. -/
lemma goToNextVisibleStep_stable (dom : Dom) (s : GuideState) :
    goToNextVisibleStep dom (repositionHole dom (goToNextVisibleStep dom s))
      = repositionHole dom (goToNextVisibleStep dom s) := by
  by_cases hc : s.currentStep.el = none
  · cases hf : findVisibleStep dom s.remainingSteps with
    | none =>
      have h1 : goToNextVisibleStep dom s = s := by
        rw [goToNextVisibleStep, if_pos hc, hf]
      rw [h1, goToNextVisibleStep, if_pos (by rw [repositionHole_currentStep]; exact hc),
        repositionHole_remainingSteps, hf]
    | some p =>
      obtain ⟨d, el⟩ := p
      have h1 : goToNextVisibleStep dom s =
          { s with
            currentStep := { el := some el, tipProps := some d.tipProps }
            remainingSteps :=
              s.remainingSteps.filter (fun step => step.elementId ≠ d.elementId) } := by
        rw [goToNextVisibleStep, if_pos hc, hf]
      rw [h1, goToNextVisibleStep, if_neg (by rw [repositionHole_currentStep]; simp)]
  · have h1 : goToNextVisibleStep dom s = s := by rw [goToNextVisibleStep, if_neg hc]
    rw [h1, goToNextVisibleStep, if_neg (by rw [repositionHole_currentStep]; exact hc)]

lemma repositionHole_idem (dom : Dom) (s : GuideState) :
    repositionHole dom (repositionHole dom s) = repositionHole dom s := rfl

/-- Claim C5: advancement is a no-op whenever a step is already active, and a
repeated advancement trigger under an unchanged DOM is idempotent — at most
one promotion happens and the second trigger changes nothing. -/
theorem spec_C5 (dom : Dom) (s : GuideState) :
    (s.currentStep.el ≠ none → goToNextVisibleStep dom s = s) ∧
    applyOp (.advance dom) (applyOp (.advance dom) s) = applyOp (.advance dom) s := by
  constructor
  · intro h
    rw [goToNextVisibleStep, if_neg h]
  · show repositionHole dom (goToNextVisibleStep dom
        (repositionHole dom (goToNextVisibleStep dom s)))
      = repositionHole dom (goToNextVisibleStep dom s)
    rw [goToNextVisibleStep_stable, repositionHole_idem]

/-- Witness for C5: with a step active, advancement changes nothing, and a
double trigger equals a single one. -/
theorem spec_C5_witness :
    goToNextVisibleStep domAB sActive = sActive ∧
    applyOp (Op.advance domAB) (applyOp (Op.advance domAB) sActive)
      = applyOp (Op.advance domAB) sActive :=
  ⟨(spec_C5 domAB sActive).1 (by decide), (spec_C5 domAB sActive).2⟩

/-- Claim C6: when two queued descriptors share an element id, the scan never
stops at the later occurrence's position (the earlier one resolves whenever
the later one does), and a promotion of that id removes both occurrences from
the queue at once. -/
theorem spec_C6 (dom : Dom) (s : GuideState) (l₁ l₂ l₃ : List StepInfo) (d₁ d₂ : StepInfo)
    (hcur : s.currentStep.el = none)
    (hsplit : s.remainingSteps = l₁ ++ d₁ :: l₂ ++ d₂ :: l₃)
    (hid : d₂.elementId = d₁.elementId) :
    firstVisibleIdx dom s.remainingSteps ≠ some (l₁.length + 1 + l₂.length) ∧
    ∀ d el, findVisibleStep dom s.remainingSteps = some (d, el) → d.elementId = d₁.elementId →
      d₁ ∉ (goToNextVisibleStep dom s).remainingSteps ∧
      d₂ ∉ (goToNextVisibleStep dom s).remainingSteps := by
  constructor
  · rw [hsplit]
    exact firstVisibleIdx_ne_dup hid l₁ l₂ l₃
  · intro d el hf hd
    have h1 : (goToNextVisibleStep dom s).remainingSteps
        = s.remainingSteps.filter (fun step => step.elementId ≠ d.elementId) := by
      rw [goToNextVisibleStep, if_pos hcur, hf]
    rw [h1]
    constructor
    · intro hmem
      have h2 := (List.mem_filter.mp hmem).2
      rw [decide_eq_true_eq] at h2
      exact h2 hd.symm
    · intro hmem
      have h2 := (List.mem_filter.mp hmem).2
      rw [decide_eq_true_eq] at h2
      exact h2 (hid.trans hd.symm)

/-- Scenario 5 instance of C6: two descriptors share id `x`; the scan stops at
the first, and its promotion discards both. -/
theorem spec_C6_witness :
    firstVisibleIdx domX (initialState [stepX1, stepX2]).remainingSteps ≠ some 1 ∧
    (stepX1 ∉ (goToNextVisibleStep domX (initialState [stepX1, stepX2])).remainingSteps ∧
     stepX2 ∉ (goToNextVisibleStep domX (initialState [stepX1, stepX2])).remainingSteps) := by
  have h := spec_C6 domX (initialState [stepX1, stepX2]) [] [] [] stepX1 stepX2 rfl rfl rfl
  exact ⟨h.1, h.2 stepX1 7 (by decide) rfl⟩

lemma stepInv_initialState (steps : List StepInfo) : stepInv (initialState steps) :=
  fun _ => rfl

lemma stepInv_applyOp (op : Op) (s : GuideState) (h : stepInv s) : stepInv (applyOp op s) := by
  cases op with
  | advance dom =>
    intro he
    rw [applyOp, repositionHole_currentStep] at he ⊢
    rw [goToNextVisibleStep] at he ⊢
    by_cases hc : s.currentStep.el = none
    · rw [if_pos hc] at he ⊢
      cases hf : findVisibleStep dom s.remainingSteps with
      | none => rw [hf] at he; exact h he
      | some p =>
        obtain ⟨d, el⟩ := p
        rw [hf] at he
        exact Option.noConfusion he
    · rw [if_neg hc] at he ⊢
      exact h he
  | click dom => intro _; rfl
  | key dom k =>
    intro he
    rw [applyOp, repositionHole_currentStep, onKeyDown] at he ⊢
    by_cases hk : k = "Enter"
    · rw [if_pos hk]
    · rw [if_neg hk] at he ⊢
      exact h he

lemma stepInv_runOps (ops : List Op) (s : GuideState) (h : stepInv s) :
    stepInv (runOps ops s) := by
  induction ops generalizing s with
  | nil => exact h
  | cons op ops ih =>
    rw [runOps_cons]
    exact ih _ (stepInv_applyOp op s h)

/-- Claim C10: the current step satisfies "null element implies null tip" at
mount and in every state reachable by triggers (each trigger preserves it),
and whenever the current element is null the component renders nothing. -/
theorem spec_C10 (steps : List StepInfo) (op : Op) (s s' : GuideState) (ops : List Op) :
    stepInv (initialState steps) ∧
    (stepInv s → stepInv (applyOp op s)) ∧
    stepInv (runOps ops (initialState steps)) ∧
    (s'.currentStep.el = none → render s' = none) := by
  refine ⟨stepInv_initialState steps, stepInv_applyOp op s,
    stepInv_runOps ops _ (stepInv_initialState steps), fun h => ?_⟩
  rw [render, h]

/-- Witness for C10: a dismissal preserves the step invariant, and the mount
state renders nothing. -/
theorem spec_C10_witness :
    stepInv (applyOp (Op.click domNone) sActive) ∧
    render (initialState [stepA]) = none :=
  ⟨(spec_C10 [stepA] (Op.click domNone) sActive sActive []).2.1 (fun h => by simp [sActive] at h),
   (spec_C10 [stepA] (Op.click domNone) (initialState [stepA]) (initialState [stepA]) []).2.2.2 rfl⟩

end TutorialGuide
